import Mathlib

/-!
Verification of the grammar rules of
`crates/apollo-parser/src/parser/grammar/input.rs`.

The file embeds the parser state (token cursor, tree-builder stack, error
sink) and the four grammar rules of `input.rs`
(`input_object_type_definition`, `input_object_type_extension`,
`input_fields_definition`, `input_value_definition`), and proves properties
about them.  Rust panics (`Option::unwrap` on `None`) are modelled as the
`Except.error` branch of `PResult`, carrying the state at the moment of the
panic.  Helper rules that live in other files of the repository
(`name::name`, `directive::directives`, `ty::ty`, `value::default_value`)
and the `Parser` primitives are modelled from the spec, as marked on each.
-/

/-- Kinds of tokens produced by the lexer: the terminals consulted by the
rules of `input.rs` (`TokenKind::Name`, `T![@]`, `T!['{']`, `T!['}']`,
`T![:]`, `T![,]`, `T![=]`, `T!['[']`, plus the remaining punctuation of the
bracket/bang family). -/
inductive TokenKind where
  | Name | LCurly | RCurly | Colon | Comma | At | Eq | Bang | LBracket | RBracket
deriving DecidableEq, Repr

/-- A lexer token: a terminal kind and its literal text. -/
structure Token where
  kind : TokenKind
  text : String
deriving DecidableEq, Repr

/-- The tree-node and leaf-token tags used by the rules of `input.rs` and by
the sub-rules they invoke. -/
inductive SyntaxKind where
  | DOCUMENT
  | INPUT_OBJECT_TYPE_DEFINITION
  | INPUT_OBJECT_TYPE_EXTENSION
  | INPUT_FIELDS_DEFINITION
  | INPUT_VALUE_DEFINITION
  | NAME | IDENT
  | TYPE | NAMED_TYPE | NON_NULL_TYPE | LIST_TYPE
  | DIRECTIVES | DIRECTIVE | AT
  | DEFAULT_VALUE | EQ | VALUE
  | input_KW | extend_KW
  | L_CURLY | R_CURLY | COLON | COMMA | L_BRACKET | R_BRACKET | BANG
deriving DecidableEq, Repr

/-- A node of the lossless syntax tree: either a leaf token (tagged with the
`SyntaxKind` it was bumped as) or an inner node with ordered children. -/
inductive Cst where
  | token (kind : SyntaxKind) (text : String)
  | node (kind : SyntaxKind) (children : List Cst)
deriving Repr

/-- An open frame of the tree builder: the node kind pushed by `start_node`
and the children accumulated so far. -/
structure Frame where
  kind : SyntaxKind
  children : List Cst
deriving Repr

/-- Modelled from the spec: the shared parser state of `Parser` (the token
cursor, the tree-builder stack of open frames, completed root nodes, and the
append-only error sink).  `Parser` itself lives outside the given source
file; its contract is spec sections 4.1 and 4.2. -/
structure Parser where
  tokens : List Token
  stack : List Frame
  roots : List Cst
  errors : List String
deriving Repr

/-- A Rust panic: the panic message together with the parser state at the
moment of the panic (the error sink already holds everything pushed before
the panic). -/
structure Panic where
  msg : String
  state : Parser
deriving Repr

/-- The outcome of running a grammar rule: normal return with the updated
state, or a panic. -/
abbrev PResult := Except Panic Parser

/-- The message of the Rust panic raised by unwrapping `None`. -/
def unwrapPanic : String := "called Option::unwrap on a None value"

/-- Modelled from the spec (4.1): `peek` returns the kind of the next
unconsumed token without advancing. -/
def Parser.peek (p : Parser) : Option TokenKind :=
  p.tokens.head?.map Token.kind

/-- Modelled from the spec (4.1): `peek_data` returns the literal text of the
next token, used for error messages. -/
def Parser.peek_data (p : Parser) : Option String :=
  p.tokens.head?.map Token.text

/-- Attach a finished tree (token or node) as a child of the currently open
frame, or as a root when no frame is open. -/
def Parser.attach (p : Parser) (t : Cst) : Parser :=
  match p.stack with
  | [] => { p with roots := p.roots ++ [t] }
  | f :: fs => { p with stack := { f with children := f.children ++ [t] } :: fs }

/-- Modelled from the spec (4.1): `bump` consumes the next token and appends
it as a leaf child (tagged `k`) of the currently open node; it is a
mechanical consume-and-attach with no check of the token's own kind.  On an
exhausted stream there is nothing to consume and the state is unchanged. -/
def Parser.bump (p : Parser) (k : SyntaxKind) : Parser :=
  match p.tokens with
  | [] => p
  | t :: rest => { p.attach (Cst.token k t.text) with tokens := rest }

/-- Modelled from the spec (4.2): `start_node` pushes a new open frame tagged
with the given kind. -/
def Parser.startNode (p : Parser) (k : SyntaxKind) : Parser :=
  { p with stack := ⟨k, []⟩ :: p.stack }

/-- Modelled from the spec (4.2): closing a frame pops it, builds a node from
its accumulated children, and attaches it to the enclosing frame (or to the
roots when the stack becomes empty). -/
def Parser.finishNode (p : Parser) : Parser :=
  match p.stack with
  | [] => p
  | f :: rest =>
    let t := Cst.node f.kind f.children
    match rest with
    | [] => { p with stack := [], roots := p.roots ++ [t] }
    | g :: gs => { p with stack := { g with children := g.children ++ [t] } :: gs }

/-- Modelled from the spec (component 3): pushing a structured error appends
it to the ordered error sink and never interrupts tree building. -/
def Parser.push_err (p : Parser) (m : String) : Parser :=
  { p with errors := p.errors ++ [m] }

/-- Modelled from the spec: `name::name` (external to `input.rs`) parses the
Name token into a `NAME` node holding the `IDENT` leaf, as in the tree dumps
of the source tests. -/
def name (p : Parser) : Parser :=
  match p.tokens with
  | [] => p
  | t :: rest =>
    { p.attach (Cst.node .NAME [Cst.token .IDENT t.text]) with tokens := rest }

/-- Modelled from the spec: the token consumption and tree shape of
`directive::directives` (external to `input.rs`): one or more directives,
each an `AT` token followed by a Name, consumed while the lookahead is `@`
(spec scenario 4 shows `DIRECTIVES` holding `DIRECTIVE` nodes of `AT` and
`NAME`; arguments are outside the given fragment). -/
def parseDirectives : List Token → List Cst × List Token
  | ⟨.At, a⟩ :: ⟨.Name, d⟩ :: rest =>
    let (ds, r) := parseDirectives rest
    (Cst.node .DIRECTIVE [Cst.token .AT a, Cst.node .NAME [Cst.token .IDENT d]] :: ds, r)
  | ⟨.At, a⟩ :: rest => ([Cst.node .DIRECTIVE [Cst.token .AT a]], rest)
  | ts => ([], ts)

/-- Modelled from the spec: `directive::directives` wraps the parsed
directive list in a `DIRECTIVES` node attached to the open frame. -/
def directives (p : Parser) : Parser :=
  let (ds, r) := parseDirectives p.tokens
  { p.attach (Cst.node .DIRECTIVES ds) with tokens := r }

/-- Modelled from the spec: the token consumption and tree shape of `ty::ty`
(external to `input.rs`): a type reference is a named type or a
bracket-delimited list type, optionally wrapped by a `!` non-null marker
(spec 4.3 "Type references", scenario 1: `Int!` yields a `NON_NULL_TYPE`
wrapping a `NAMED_TYPE`). -/
def parseTyTree : List Token → Option (Cst × List Token)
  | ⟨.Name, s⟩ :: rest =>
    let base := Cst.node .NAMED_TYPE [Cst.token .IDENT s]
    match rest with
    | ⟨.Bang, b⟩ :: rest2 =>
      some (Cst.node .TYPE [Cst.node .NON_NULL_TYPE [Cst.node .TYPE [base], Cst.token .BANG b]], rest2)
    | _ => some (Cst.node .TYPE [base], rest)
  | ⟨.LBracket, l⟩ :: rest =>
    match parseTyTree rest with
    | some (inner, rest2) =>
      match rest2 with
      | ⟨.RBracket, r⟩ :: rest3 =>
        let base := Cst.node .LIST_TYPE [Cst.token .L_BRACKET l, inner, Cst.token .R_BRACKET r]
        match rest3 with
        | ⟨.Bang, b⟩ :: rest4 =>
          some (Cst.node .TYPE [Cst.node .NON_NULL_TYPE [Cst.node .TYPE [base], Cst.token .BANG b]], rest4)
        | _ => some (Cst.node .TYPE [base], rest3)
      | _ => some (Cst.node .TYPE [Cst.node .LIST_TYPE [Cst.token .L_BRACKET l, inner]], rest2)
    | none => some (Cst.node .TYPE [Cst.token .L_BRACKET l], rest)
  | _ => none

/-- Modelled from the spec: `ty::ty`, invoked only when the lookahead is an
identifier or `[`; attaches the parsed `TYPE` tree to the open frame. -/
def ty (p : Parser) : Parser :=
  match parseTyTree p.tokens with
  | some (t, r) => { p.attach t with tokens := r }
  | none => p

/-- Modelled from the spec: the token consumption of `value::default_value`
(external to `input.rs`): a `=` followed by one value token, as in the
grammar comment `DefaultValue(opt)`; invoked only when the lookahead is
`=`. -/
def parseDefaultValue : List Token → Option (Cst × List Token)
  | ⟨.Eq, e⟩ :: v :: rest =>
    some (Cst.node .DEFAULT_VALUE [Cst.token .EQ e, Cst.token .VALUE v.text], rest)
  | ⟨.Eq, e⟩ :: [] => some (Cst.node .DEFAULT_VALUE [Cst.token .EQ e], [])
  | _ => none

/-- Modelled from the spec: `value::default_value` attaches the parsed
default value to the open frame. -/
def default_value (p : Parser) : Parser :=
  match parseDefaultValue p.tokens with
  | some (t, r) => { p.attach t with tokens := r }
  | none => p

/-- Error message of `input.rs` lines 17-23 and 53-59 (note that the
extension rule also says "Definition"). -/
def missingNameMsg (found : String) : String :=
  "Expected Input Object Type Definition to have a Name, got " ++ found

/-- Error message of `input.rs` lines 74-82. -/
def extRequirementsMsg (found : String) : String :=
  "Expected Input Object Type Extension to have Directives or Input Fields Definition, got " ++ found

/-- Error message of `input.rs` lines 99-105 (the format string escapes the
closing brace as `}}`). -/
def missingClosingBraceMsg (found : String) : String :=
  "Expected Fields Definition to have a closing \x7d, got " ++ found

/-- Error message of `input.rs` lines 133-137. -/
def ivdTypeMsg (found : String) : String :=
  "Expected InputValue definition to have a Type, got " ++ found

/-- Error message of `input.rs` lines 141-145. -/
def ivdNameMsg (found : String) : String :=
  "Expected InputValue definition to have a Name, got " ++ found

/-- Error message of `input.rs` lines 154-158. -/
def ivdListMsg (found : String) : String :=
  "Expected to have an InputValue definition, got " ++ found

/-- The body of `input_value_definition` (`input.rs` lines 115-160),
fuelled: the Rust function is recursive, and every recursive call consumes
at least one token, so `tokens.length + 1` units of fuel always suffice (the
wrapper `input_value_definition` below supplies them; the fuel-exhaustion
branch is unreachable from the wrapper).  `step2` is the tail of the
function (lines 148-159): the separator check, then the `!is_input` error
whose `peek_data().unwrap()` panics at end of stream. -/
def ivdF : Nat → Parser → Bool → PResult
  | 0, p, _ => .error ⟨"out of fuel", p⟩
  | f + 1, p, is_input =>
    let step2 : Parser → Bool → PResult := fun q b =>
      if q.peek = some TokenKind.Comma then
        ivdF f (q.bump SyntaxKind.COMMA) b
      else if b then .ok q
      else
        match q.peek_data with
        | some d => .ok (q.push_err (ivdListMsg d))
        | none => .error ⟨unwrapPanic, q⟩
    if p.peek = some TokenKind.Name then
      let p1 := name (p.startNode SyntaxKind.INPUT_VALUE_DEFINITION)
      if p1.peek = some TokenKind.Colon then
        let p2 := p1.bump SyntaxKind.COLON
        if p2.peek = some TokenKind.Name ∨ p2.peek = some TokenKind.LBracket then
          let p3 := ty p2
          let p4 := if p3.peek = some TokenKind.Eq then default_value p3 else p3
          if p4.peek.isSome then ivdF f p4.finishNode true
          else step2 p4.finishNode is_input
        else
          match p2.peek_data with
          | some d => step2 ((p2.push_err (ivdTypeMsg d)).finishNode) is_input
          | none => .error ⟨unwrapPanic, p2⟩
      else
        match p1.peek_data with
        | some d => step2 ((p1.push_err (ivdNameMsg d)).finishNode) is_input
        | none => .error ⟨unwrapPanic, p1⟩
    else step2 p is_input

/-- `input_value_definition` (`input.rs` lines 115-160): the recursive
InputValueDefinition list rule, with the `is_input` accumulator threaded
through the recursion. -/
def input_value_definition (p : Parser) (is_input : Bool) : PResult :=
  ivdF (p.tokens.length + 1) p is_input

/-- `input_fields_definition` (`input.rs` lines 92-107). -/
def input_fields_definition (p : Parser) : PResult :=
  let p1 := (p.startNode SyntaxKind.INPUT_FIELDS_DEFINITION).bump SyntaxKind.L_CURLY
  match input_value_definition p1 false with
  | .error e => .error e
  | .ok p2 =>
    if p2.peek = some TokenKind.RCurly then
      .ok ((p2.bump SyntaxKind.R_CURLY).finishNode)
    else
      .ok ((p2.push_err (missingClosingBraceMsg (p2.peek_data.getD "no further data"))).finishNode)

/-- `input_object_type_definition` (`input.rs` lines 10-34). -/
def input_object_type_definition (p : Parser) : PResult :=
  let p1 := (p.startNode SyntaxKind.INPUT_OBJECT_TYPE_DEFINITION).bump SyntaxKind.input_KW
  let p2 :=
    match p1.peek with
    | some TokenKind.Name => name p1
    | _ => p1.push_err (missingNameMsg (p1.peek_data.getD "no further data"))
  let p3 := if p2.peek = some TokenKind.At then directives p2 else p2
  match (if p3.peek = some TokenKind.LCurly then input_fields_definition p3 else .ok p3) with
  | .error e => .error e
  | .ok p4 => .ok p4.finishNode

/-- `input_object_type_extension` (`input.rs` lines 43-84): the
`meets_requirements` flag starts false and is set by the directives clause
and by the input-fields-definition clause. -/
def input_object_type_extension (p : Parser) : PResult :=
  let p1 := ((p.startNode SyntaxKind.INPUT_OBJECT_TYPE_EXTENSION).bump
    SyntaxKind.extend_KW).bump SyntaxKind.input_KW
  let p2 :=
    match p1.peek with
    | some TokenKind.Name => name p1
    | _ => p1.push_err (missingNameMsg (p1.peek_data.getD "no further data"))
  let mr1 := p2.peek = some TokenKind.At
  let p3 := if p2.peek = some TokenKind.At then directives p2 else p2
  let mr2 := mr1 ∨ p3.peek = some TokenKind.LCurly
  match (if p3.peek = some TokenKind.LCurly then input_fields_definition p3 else .ok p3) with
  | .error e => .error e
  | .ok p4 =>
    if mr2 then .ok p4.finishNode
    else .ok ((p4.push_err (extRequirementsMsg (p4.peek_data.getD "no further data"))).finishNode)

/-- The parser state at the start of a parse: the token stream, the open
`DOCUMENT` frame, no completed roots and an empty error sink. -/
def mkParser (ts : List Token) : Parser :=
  ⟨ts, [⟨.DOCUMENT, []⟩], [], []⟩

/-- Whether a rule returned normally. -/
def isOk : PResult → Bool
  | .ok _ => true
  | .error _ => false

/-- Whether a rule panicked. -/
def isPanic : PResult → Bool
  | .ok _ => false
  | .error _ => true

/-- The error sink of the outcome: on a panic, the errors pushed before the
panic. -/
def errorsOf : PResult → List String
  | .ok p => p.errors
  | .error e => e.state.errors

mutual
/-- Whether a tag occurs anywhere in a tree (on the node itself, a leaf, or
any descendant). -/
def Cst.hasKind : Cst → SyntaxKind → Bool
  | .token k _, k' => decide (k = k')
  | .node k cs, k' => decide (k = k') || Cst.anyHasKind cs k'
/-- Whether a tag occurs anywhere in a forest. -/
def Cst.anyHasKind : List Cst → SyntaxKind → Bool
  | [], _ => false
  | t :: ts, k' => t.hasKind k' || Cst.anyHasKind ts k'
end

/-- The kind of the first token of a stream. -/
def headKind (ts : List Token) : Option TokenKind :=
  ts.head?.map Token.kind

/-- Tokens of concrete programs used in the theorems below. -/
def tInput : Token := ⟨.Name, "input"⟩

/-- The `extend` keyword token. -/
def tExtend : Token := ⟨.Name, "extend"⟩

/-- A name token. -/
def tName (s : String) : Token := ⟨.Name, s⟩

/-- The opening-brace token. -/
def tLC : Token := ⟨.LCurly, "\x7b"⟩

/-- The closing-brace token. -/
def tRC : Token := ⟨.RCurly, "\x7d"⟩

/-- The colon token. -/
def tColon : Token := ⟨.Colon, ":"⟩

/-- The comma token. -/
def tComma : Token := ⟨.Comma, ","⟩

/-- The at token. -/
def tAt : Token := ⟨.At, "@"⟩

/-- The bang token. -/
def tBang : Token := ⟨.Bang, "!"⟩

/-- Token streams forming a well-formed type reference, as consumed by the
type sub-rule: a named type or a bracketed list type, optionally followed by
one non-null `!`. -/
inductive ValidTy : List Token → Prop
  | named (s : String) : ValidTy [⟨.Name, s⟩]
  | namedNonNull (s b : String) : ValidTy [⟨.Name, s⟩, ⟨.Bang, b⟩]
  | list (l r : String) {ts : List Token} : ValidTy ts →
      ValidTy (⟨.LBracket, l⟩ :: ts ++ [⟨.RBracket, r⟩])
  | listNonNull (l r b : String) {ts : List Token} : ValidTy ts →
      ValidTy (⟨.LBracket, l⟩ :: ts ++ [⟨.RBracket, r⟩, ⟨.Bang, b⟩])

/-- The tokens of one InputValueDefinition: `Name : Type`. -/
def fieldToks (n c : String) (ts : List Token) : List Token :=
  ⟨.Name, n⟩ :: ⟨.Colon, c⟩ :: ts

/-- Token streams that validly continue an InputValueDefinition list once at
least one element has been parsed, up to (excluding) the closing brace:
any interleaving of well-formed fields and comma separators, including
none. -/
inductive FieldsAfter : List Token → Prop
  | nil : FieldsAfter []
  | comma (cm : String) {rest : List Token} : FieldsAfter rest →
      FieldsAfter (⟨.Comma, cm⟩ :: rest)
  | field (n c : String) {ts rest : List Token} : ValidTy ts → FieldsAfter rest →
      (headKind rest = some .Name ∨ headKind rest = some .Comma ∨ rest = []) →
      FieldsAfter (fieldToks n c ts ++ rest)

/-- Token streams forming a valid, nonempty InputValueDefinition list body
(the part between the braces): leading commas are allowed, and at least one
well-formed field occurs. -/
inductive FieldsContent : List Token → Prop
  | comma (cm : String) {rest : List Token} : FieldsContent rest →
      FieldsContent (⟨.Comma, cm⟩ :: rest)
  | field (n c : String) {ts rest : List Token} : ValidTy ts → FieldsAfter rest →
      (headKind rest = some .Name ∨ headKind rest = some .Comma ∨ rest = []) →
      FieldsContent (fieldToks n c ts ++ rest)

/-- Token streams forming one or more well-formed directives (`@ Name`). -/
inductive ValidDirs : List Token → Prop
  | one (a d : String) : ValidDirs [⟨.At, a⟩, ⟨.Name, d⟩]
  | cons (a d : String) {rest : List Token} : ValidDirs rest →
      ValidDirs (⟨.At, a⟩ :: ⟨.Name, d⟩ :: rest)

/-- Token streams forming a well-formed brace-delimited fields block. -/
inductive FieldsBlock : List Token → Prop
  | mk (lc rc : String) {cs : List Token} : FieldsContent cs →
      FieldsBlock (⟨.LCurly, lc⟩ :: cs ++ [⟨.RCurly, rc⟩])

/-- Token streams forming a grammatically valid input object type
definition: the `input` keyword, a name, optional directives, and an
optional fields block. -/
inductive ValidDef : List Token → Prop
  | plain (nm : String) : ValidDef [⟨.Name, "input"⟩, ⟨.Name, nm⟩]
  | dirs (nm : String) {ds : List Token} : ValidDirs ds →
      ValidDef (⟨.Name, "input"⟩ :: ⟨.Name, nm⟩ :: ds)
  | fields (nm : String) {fb : List Token} : FieldsBlock fb →
      ValidDef (⟨.Name, "input"⟩ :: ⟨.Name, nm⟩ :: fb)
  | dirsFields (nm : String) {ds fb : List Token} : ValidDirs ds → FieldsBlock fb →
      ValidDef (⟨.Name, "input"⟩ :: ⟨.Name, nm⟩ :: (ds ++ fb))

/-- Token streams forming a grammatically valid input object type extension:
`extend input`, a name, and at least one of directives and a fields
block. -/
inductive ValidExt : List Token → Prop
  | dirs (nm : String) {ds : List Token} : ValidDirs ds →
      ValidExt (⟨.Name, "extend"⟩ :: ⟨.Name, "input"⟩ :: ⟨.Name, nm⟩ :: ds)
  | fields (nm : String) {fb : List Token} : FieldsBlock fb →
      ValidExt (⟨.Name, "extend"⟩ :: ⟨.Name, "input"⟩ :: ⟨.Name, nm⟩ :: fb)
  | dirsFields (nm : String) {ds fb : List Token} : ValidDirs ds → FieldsBlock fb →
      ValidExt (⟨.Name, "extend"⟩ :: ⟨.Name, "input"⟩ :: ⟨.Name, nm⟩ :: (ds ++ fb))

/-- The tree-builder stack discipline relating the state at a rule's entry to
the state at its normal return: the open frames are the same ones (no frame
leaked, none closed that the rule did not open), the enclosing frames are
untouched, and the innermost open frame has only gained children. -/
def stackPreserved (p q : Parser) : Prop :=
  (p.stack = [] ∧ q.stack = []) ∨
  (∃ f g r new, p.stack = f :: r ∧ q.stack = g :: r ∧
    g.kind = f.kind ∧ g.children = f.children ++ new)

/-- The tree of the fields block of `\x7b a: String b: Int! \x7d`, shared by
the parse with a name and the parse without one. -/
def c5FieldStructure : Cst :=
  Cst.node .INPUT_FIELDS_DEFINITION
    [Cst.token .L_CURLY "\x7b",
     Cst.node .INPUT_VALUE_DEFINITION
       [Cst.node .NAME [Cst.token .IDENT "a"], Cst.token .COLON ":",
        Cst.node .TYPE [Cst.node .NAMED_TYPE [Cst.token .IDENT "String"]]],
     Cst.node .INPUT_VALUE_DEFINITION
       [Cst.node .NAME [Cst.token .IDENT "b"], Cst.token .COLON ":",
        Cst.node .TYPE
          [Cst.node .NON_NULL_TYPE
            [Cst.node .TYPE [Cst.node .NAMED_TYPE [Cst.token .IDENT "Int"]],
             Cst.token .BANG "!"]]],
     Cst.token .R_CURLY "\x7d"]

/-- C1: the claim says parsing never panics, but on the token stream of
`input Foo \x7b` (end of stream right after the opening brace) the list rule
`input_value_definition` evaluates `peek_data().unwrap()` at end of stream
(lines 153-158) and panics; the open frames at the moment of the panic and
the empty error sink are shown explicitly. -/
theorem c1_panics_at_end_of_stream :
    input_object_type_definition (mkParser [tInput, tName "Foo", tLC]) =
      .error ⟨unwrapPanic,
        ⟨[],
         [⟨.INPUT_FIELDS_DEFINITION, [Cst.token .L_CURLY "\x7b"]⟩,
          ⟨.INPUT_OBJECT_TYPE_DEFINITION,
            [Cst.token .input_KW "input", Cst.node .NAME [Cst.token .IDENT "Foo"]]⟩,
          ⟨.DOCUMENT, []⟩],
         [], []⟩⟩ := rfl

/-- C4: on `extend input Foo`, neither the directives clause nor the fields
clause fires, so the extension rule produces the keyword tokens plus the
NAME and pushes the single disjunction error with "no further data". -/
theorem c4_extension_without_requirements :
    input_object_type_extension (mkParser [tExtend, tInput, tName "Foo"]) =
      .ok ⟨[],
        [⟨.DOCUMENT,
          [Cst.node .INPUT_OBJECT_TYPE_EXTENSION
            [Cst.token .extend_KW "extend", Cst.token .input_KW "input",
             Cst.node .NAME [Cst.token .IDENT "Foo"]]]⟩],
        [],
        ["Expected Input Object Type Extension to have Directives or Input Fields Definition, got no further data"]⟩ :=
  rfl

/-- C5: on `input \x7b a: String b: Int! \x7d` (name omitted) the definition
rule pushes exactly one error naming what was found and still parses the
fields, producing the same field structure as the named parse
`input Foo \x7b a: String b: Int! \x7d`, which parses with no error. -/
theorem c5_missing_name_keeps_fields :
    input_object_type_definition
      (mkParser [tInput, tLC, tName "a", tColon, tName "String",
                 tName "b", tColon, tName "Int", tBang, tRC]) =
      .ok ⟨[],
        [⟨.DOCUMENT,
          [Cst.node .INPUT_OBJECT_TYPE_DEFINITION
            [Cst.token .input_KW "input", c5FieldStructure]]⟩],
        [],
        ["Expected Input Object Type Definition to have a Name, got \x7b"]⟩ ∧
    input_object_type_definition
      (mkParser [tInput, tName "Foo", tLC, tName "a", tColon, tName "String",
                 tName "b", tColon, tName "Int", tBang, tRC]) =
      .ok ⟨[],
        [⟨.DOCUMENT,
          [Cst.node .INPUT_OBJECT_TYPE_DEFINITION
            [Cst.token .input_KW "input", Cst.node .NAME [Cst.token .IDENT "Foo"],
             c5FieldStructure]]⟩],
        [], []⟩ :=
  ⟨rfl, rfl⟩

/-- C6: on `input Foo \x7b\x7d` (empty body) the INPUT_FIELDS_DEFINITION
node holds only the two brace tokens, and exactly one error is recorded:
"Expected to have an InputValue definition, got \x7d". -/
theorem c6_empty_body :
    input_object_type_definition (mkParser [tInput, tName "Foo", tLC, tRC]) =
      .ok ⟨[],
        [⟨.DOCUMENT,
          [Cst.node .INPUT_OBJECT_TYPE_DEFINITION
            [Cst.token .input_KW "input", Cst.node .NAME [Cst.token .IDENT "Foo"],
             Cst.node .INPUT_FIELDS_DEFINITION
               [Cst.token .L_CURLY "\x7b", Cst.token .R_CURLY "\x7d"]]]⟩],
        [],
        ["Expected to have an InputValue definition, got \x7d"]⟩ :=
  rfl

/-- C2, counterexample: after one element has been parsed (`a: String`), the
cursor sits on `@`, a token that is neither the terminator `\x7d` nor the
separator `,`; the claim says an error is pushed, but the rule returns with
an empty error sink: the boolean accumulator suppresses the terminal error
entirely instead of selecting a different message. -/
theorem c2_counterexample :
    input_value_definition
      (mkParser [tName "a", tColon, tName "String", tAt, tRC]) false =
      .ok ⟨[tAt, tRC],
        [⟨.DOCUMENT,
          [Cst.node .INPUT_VALUE_DEFINITION
            [Cst.node .NAME [Cst.token .IDENT "a"], Cst.token .COLON ":",
             Cst.node .TYPE [Cst.node .NAMED_TYPE [Cst.token .IDENT "String"]]]]⟩],
        [], []⟩ ∧
    errorsOf (input_value_definition
      (mkParser [tName "a", tColon, tName "String", tAt, tRC]) false) = [] :=
  ⟨rfl, rfl⟩

/-- C3, counterexample: on `input \x7b\x7d` the missing-Name error is
recorded, yet no node for the Name slot exists anywhere in the produced
tree (zero-width or otherwise): the resulting definition node has only the
keyword token and the fields block, and no NAME tag occurs in it. -/
theorem c3_counterexample :
    input_object_type_definition (mkParser [tInput, tLC, tRC]) =
      .ok ⟨[],
        [⟨.DOCUMENT,
          [Cst.node .INPUT_OBJECT_TYPE_DEFINITION
            [Cst.token .input_KW "input",
             Cst.node .INPUT_FIELDS_DEFINITION
               [Cst.token .L_CURLY "\x7b", Cst.token .R_CURLY "\x7d"]]]⟩],
        [],
        ["Expected Input Object Type Definition to have a Name, got \x7b",
         "Expected to have an InputValue definition, got \x7d"]⟩ ∧
    Cst.hasKind
      (Cst.node .INPUT_OBJECT_TYPE_DEFINITION
        [Cst.token .input_KW "input",
         Cst.node .INPUT_FIELDS_DEFINITION
           [Cst.token .L_CURLY "\x7b", Cst.token .R_CURLY "\x7d"]])
      SyntaxKind.NAME = false :=
  ⟨rfl, by simp [Cst.hasKind, Cst.anyHasKind]⟩

@[simp] theorem Parser.attach_tokens (p : Parser) (t : Cst) : (p.attach t).tokens = p.tokens := by
  unfold Parser.attach; split <;> rfl

@[simp] theorem Parser.attach_errors (p : Parser) (t : Cst) : (p.attach t).errors = p.errors := by
  unfold Parser.attach; split <;> rfl

@[simp] theorem Parser.bump_tokens (p : Parser) (k : SyntaxKind) :
    (p.bump k).tokens = p.tokens.tail := by
  cases h : p.tokens <;> simp [Parser.bump, h]

@[simp] theorem Parser.bump_errors (p : Parser) (k : SyntaxKind) :
    (p.bump k).errors = p.errors := by
  cases h : p.tokens <;> simp [Parser.bump, h]

@[simp] theorem Parser.startNode_tokens (p : Parser) (k : SyntaxKind) :
    (p.startNode k).tokens = p.tokens := rfl

@[simp] theorem Parser.startNode_errors (p : Parser) (k : SyntaxKind) :
    (p.startNode k).errors = p.errors := rfl

@[simp] theorem Parser.push_err_tokens (p : Parser) (m : String) :
    (p.push_err m).tokens = p.tokens := rfl

@[simp] theorem Parser.push_err_errors (p : Parser) (m : String) :
    (p.push_err m).errors = p.errors ++ [m] := rfl

@[simp] theorem Parser.finishNode_tokens (p : Parser) : p.finishNode.tokens = p.tokens := by
  rcases h : p.stack with _ | ⟨f, _ | ⟨g, gs⟩⟩ <;> simp [Parser.finishNode, h]

@[simp] theorem Parser.finishNode_errors (p : Parser) : p.finishNode.errors = p.errors := by
  rcases h : p.stack with _ | ⟨f, _ | ⟨g, gs⟩⟩ <;> simp [Parser.finishNode, h]

@[simp] theorem name_tokens (p : Parser) : (name p).tokens = p.tokens.tail := by
  cases h : p.tokens <;> simp [name, h]

@[simp] theorem name_errors (p : Parser) : (name p).errors = p.errors := by
  cases h : p.tokens <;> simp [name, h]

@[simp] theorem ty_errors (p : Parser) : (ty p).errors = p.errors := by
  unfold ty; split <;> simp

@[simp] theorem directives_errors (p : Parser) : (directives p).errors = p.errors := by
  unfold directives; simp

@[simp] theorem default_value_errors (p : Parser) : (default_value p).errors = p.errors := by
  unfold default_value; split <;> simp

theorem sp_of_stack_eq {p q : Parser} (h : q.stack = p.stack) : stackPreserved p q := by
  unfold stackPreserved
  cases hp : p.stack with
  | nil => exact Or.inl ⟨rfl, by rw [h, hp]⟩
  | cons f r => exact Or.inr ⟨f, f, r, [], rfl, by rw [h, hp], rfl, by simp⟩

theorem sp_refl (p : Parser) : stackPreserved p p := sp_of_stack_eq rfl

theorem sp_trans {p q r : Parser} (h1 : stackPreserved p q) (h2 : stackPreserved q r) :
    stackPreserved p r := by
  unfold stackPreserved at h1 h2 ⊢
  rcases h1 with ⟨hp, hq⟩ | ⟨f, g, s, new, hp, hq, hk, hc⟩
  · rcases h2 with ⟨hq2, hr⟩ | ⟨f2, g2, s2, new2, hq2, hr2, hk2, hc2⟩
    · exact Or.inl ⟨hp, hr⟩
    · rw [hq] at hq2; exact absurd hq2 (by simp)
  · rcases h2 with ⟨hq2, hr⟩ | ⟨f2, g2, s2, new2, hq2, hr2, hk2, hc2⟩
    · rw [hq] at hq2; exact absurd hq2 (by simp)
    · rw [hq] at hq2
      injection hq2 with hfg hs
      refine Or.inr ⟨f, g2, s, new ++ new2, hp, by rw [hr2, hs], ?_, ?_⟩
      · rw [hk2, ← hfg, hk]
      · rw [hc2, ← hfg, hc, List.append_assoc]

theorem sp_attach (p : Parser) (t : Cst) : stackPreserved p (p.attach t) := by
  unfold stackPreserved Parser.attach
  cases hp : p.stack with
  | nil => exact Or.inl ⟨rfl, by simp⟩
  | cons f r => exact Or.inr ⟨f, ⟨f.kind, f.children ++ [t]⟩, r, [t], rfl, by simp, rfl, rfl⟩

theorem sp_bump (p : Parser) (k : SyntaxKind) : stackPreserved p (p.bump k) := by
  unfold Parser.bump
  cases h : p.tokens with
  | nil => exact sp_refl p
  | cons t rest =>
    have := sp_attach p (Cst.token k t.text)
    unfold stackPreserved at this ⊢
    simpa using this

theorem sp_name (p : Parser) : stackPreserved p (name p) := by
  unfold name
  cases h : p.tokens with
  | nil => exact sp_refl p
  | cons t rest =>
    have := sp_attach p (Cst.node .NAME [Cst.token .IDENT t.text])
    unfold stackPreserved at this ⊢
    simpa using this

theorem sp_ty (p : Parser) : stackPreserved p (ty p) := by
  unfold ty
  cases h : parseTyTree p.tokens with
  | none => exact sp_refl p
  | some tr =>
    have := sp_attach p tr.1
    unfold stackPreserved at this ⊢
    simpa using this

theorem sp_directives (p : Parser) : stackPreserved p (directives p) := by
  unfold directives
  have := sp_attach p (Cst.node .DIRECTIVES (parseDirectives p.tokens).1)
  unfold stackPreserved at this ⊢
  simpa using this

theorem sp_default_value (p : Parser) : stackPreserved p (default_value p) := by
  unfold default_value
  cases h : parseDefaultValue p.tokens with
  | none => exact sp_refl p
  | some tr =>
    have := sp_attach p tr.1
    unfold stackPreserved at this ⊢
    simpa using this

theorem sp_push_err (p : Parser) (m : String) : stackPreserved p (p.push_err m) :=
  sp_of_stack_eq rfl

/-- The guard discipline: if a rule body takes the state just after
`start_node` to some state while preserving the new frame, then closing that
frame returns to the caller's stack with exactly one new child attached. -/
theorem sp_sandwich {p q : Parser} (k : SyntaxKind)
    (h : stackPreserved (p.startNode k) q) : stackPreserved p q.finishNode := by
  unfold stackPreserved at h
  rcases h with ⟨hp, _⟩ | ⟨f, g, r, new, hp, hq, hk, hc⟩
  · exact absurd hp (by simp [Parser.startNode])
  · have hf : f = ⟨k, []⟩ ∧ r = p.stack := by
      have : (⟨k, []⟩ : Frame) :: p.stack = f :: r := hp
      exact ⟨(List.cons.injEq .. ▸ this).1.symm, (List.cons.injEq .. ▸ this).2.symm⟩
    obtain ⟨hf1, hf2⟩ := hf
    unfold Parser.finishNode stackPreserved
    rw [hq, hf2]
    cases hps : p.stack with
    | nil => exact Or.inl ⟨rfl, by simp⟩
    | cons e es =>
      exact Or.inr ⟨e, ⟨e.kind, e.children ++ [Cst.node g.kind g.children]⟩, es,
        [Cst.node g.kind g.children], rfl, by simp, rfl, rfl⟩

theorem Parser.tokens_ne_nil_of_peek {p : Parser} {k : TokenKind} (h : p.peek = some k) :
    p.tokens ≠ [] := by
  intro hnil; rw [Parser.peek, hnil] at h; simp at h

/-- C2 (amended): at a cursor position where no further element starts (the
lookahead is not a Name), the list rule consumes a separator `,` and
recurses with the accumulator unchanged; on any other token — the
terminator `\x7d` included — it stops, pushing the single error "Expected
to have an InputValue definition, got X" only when the accumulator is still
false, and stopping silently with no error once an element has been parsed;
at end of stream with the accumulator false it panics inside
`peek_data().unwrap()` instead of pushing an error. -/
theorem c2_list_rule_tail (p : Parser) (b : Bool)
    (hn : p.peek ≠ some TokenKind.Name) :
    input_value_definition p b =
      if p.peek = some TokenKind.Comma then
        input_value_definition (p.bump SyntaxKind.COMMA) b
      else
        match p.peek_data with
        | some d => .ok (if b then p else p.push_err (ivdListMsg d))
        | none => if b then .ok p else .error ⟨unwrapPanic, p⟩ := by
  by_cases hc : p.peek = some TokenKind.Comma
  · rw [if_pos hc]
    obtain ⟨t, ts, ht⟩ : ∃ t ts, p.tokens = t :: ts := by
      cases h : p.tokens with
      | nil => exact absurd h (Parser.tokens_ne_nil_of_peek hc)
      | cons t ts => exact ⟨t, ts, rfl⟩
    show ivdF (p.tokens.length + 1) p b =
      ivdF ((p.bump SyntaxKind.COMMA).tokens.length + 1) (p.bump SyntaxKind.COMMA) b
    rw [Parser.bump_tokens, ht, List.tail_cons, List.length_cons]
    conv_lhs => rw [ivdF]
    simp only [if_neg hn, if_pos hc]
  · rw [if_neg hc]
    show ivdF (p.tokens.length + 1) p b = _
    conv_lhs => rw [ivdF]
    simp only [if_neg hn, if_neg hc]
    cases hd : p.peek_data with
    | some d => cases b <;> simp
    | none => cases b <;> simp

/-- C2 witness: on the state whose next token is `@` with the accumulator
true (one element already parsed), the rule returns with no change and no
error. -/
theorem c2_list_rule_tail_witness :
    input_value_definition (mkParser [tAt]) true = .ok (mkParser [tAt]) := by
  have h := c2_list_rule_tail (mkParser [tAt]) true (by decide)
  simpa [mkParser, Parser.peek, Parser.peek_data, tAt] using h

/-- C9: when the token after `extend input` is not a Name, the extension
rule records the message that names the Definition construct ("Expected
Input Object Type Definition to have a Name, got X"), and the definition
rule records the identical message text for its own missing Name. -/
theorem c9_extension_reuses_definition_message (t : Token)
    (h : t.kind ≠ TokenKind.Name) :
    missingNameMsg t.text ∈
      errorsOf (input_object_type_extension (mkParser [tExtend, tInput, t])) ∧
    missingNameMsg t.text ∈
      errorsOf (input_object_type_definition (mkParser [tInput, t])) ∧
    missingNameMsg t.text =
      "Expected Input Object Type Definition to have a Name, got " ++ t.text := by
  obtain ⟨k, s⟩ := t
  cases k with
  | Name => exact absurd rfl h
  | LCurly => exact ⟨List.Mem.head _, List.Mem.head _, rfl⟩
  | RCurly => exact ⟨List.Mem.head _, List.Mem.head _, rfl⟩
  | Colon => exact ⟨List.Mem.head _, List.Mem.head _, rfl⟩
  | Comma => exact ⟨List.Mem.head _, List.Mem.head _, rfl⟩
  | At => exact ⟨List.Mem.head _, List.Mem.head _, rfl⟩
  | Eq => exact ⟨List.Mem.head _, List.Mem.head _, rfl⟩
  | Bang => exact ⟨List.Mem.head _, List.Mem.head _, rfl⟩
  | LBracket => exact ⟨List.Mem.head _, List.Mem.head _, rfl⟩
  | RBracket => exact ⟨List.Mem.head _, List.Mem.head _, rfl⟩

/-- C9 witness: at the concrete non-Name token `\x7b` both rules record the
message naming the Definition construct. -/
theorem c9_extension_reuses_definition_message_witness :
    missingNameMsg "\x7b" ∈
      errorsOf (input_object_type_extension (mkParser [tExtend, tInput, tLC])) ∧
    missingNameMsg "\x7b" ∈
      errorsOf (input_object_type_definition (mkParser [tInput, tLC])) ∧
    missingNameMsg "\x7b" =
      "Expected Input Object Type Definition to have a Name, got \x7b" :=
  c9_extension_reuses_definition_message tLC (by decide)

/-- C3 (amended): when the missing-Name error is recorded by the definition
or the extension rule, no node for the Name slot is created at all — the
produced node simply lacks a NAME child, and the parse proceeds to the
following clauses (here: none fire, and for the extension the disjunction
error follows). -/
theorem c3_missing_name_no_placeholder (t : Token)
    (h1 : t.kind ≠ TokenKind.Name) (h2 : t.kind ≠ TokenKind.At)
    (h3 : t.kind ≠ TokenKind.LCurly) :
    input_object_type_definition (mkParser [tInput, t]) =
      .ok ⟨[t],
        [⟨.DOCUMENT,
          [Cst.node .INPUT_OBJECT_TYPE_DEFINITION [Cst.token .input_KW "input"]]⟩],
        [], [missingNameMsg t.text]⟩ ∧
    Cst.hasKind
      (Cst.node .INPUT_OBJECT_TYPE_DEFINITION [Cst.token .input_KW "input"])
      SyntaxKind.NAME = false ∧
    input_object_type_extension (mkParser [tExtend, tInput, t]) =
      .ok ⟨[t],
        [⟨.DOCUMENT,
          [Cst.node .INPUT_OBJECT_TYPE_EXTENSION
            [Cst.token .extend_KW "extend", Cst.token .input_KW "input"]]⟩],
        [], [missingNameMsg t.text, extRequirementsMsg t.text]⟩ ∧
    Cst.hasKind
      (Cst.node .INPUT_OBJECT_TYPE_EXTENSION
        [Cst.token .extend_KW "extend", Cst.token .input_KW "input"])
      SyntaxKind.NAME = false := by
  have hk : Cst.hasKind
      (Cst.node .INPUT_OBJECT_TYPE_DEFINITION [Cst.token .input_KW "input"])
      SyntaxKind.NAME = false := by simp [Cst.hasKind, Cst.anyHasKind]
  have hk2 : Cst.hasKind
      (Cst.node .INPUT_OBJECT_TYPE_EXTENSION
        [Cst.token .extend_KW "extend", Cst.token .input_KW "input"])
      SyntaxKind.NAME = false := by simp [Cst.hasKind, Cst.anyHasKind]
  obtain ⟨k, s⟩ := t
  cases k with
  | Name => exact absurd rfl h1
  | At => exact absurd rfl h2
  | LCurly => exact absurd rfl h3
  | RCurly => exact ⟨rfl, hk, rfl, hk2⟩
  | Colon => exact ⟨rfl, hk, rfl, hk2⟩
  | Comma => exact ⟨rfl, hk, rfl, hk2⟩
  | Eq => exact ⟨rfl, hk, rfl, hk2⟩
  | Bang => exact ⟨rfl, hk, rfl, hk2⟩
  | LBracket => exact ⟨rfl, hk, rfl, hk2⟩
  | RBracket => exact ⟨rfl, hk, rfl, hk2⟩

/-- C3 witness: the amended behaviour at the concrete token `\x7d`. -/
theorem c3_missing_name_no_placeholder_witness :
    input_object_type_definition (mkParser [tInput, tRC]) =
      .ok ⟨[tRC],
        [⟨.DOCUMENT,
          [Cst.node .INPUT_OBJECT_TYPE_DEFINITION [Cst.token .input_KW "input"]]⟩],
        [], [missingNameMsg "\x7d"]⟩ ∧
    Cst.hasKind
      (Cst.node .INPUT_OBJECT_TYPE_DEFINITION [Cst.token .input_KW "input"])
      SyntaxKind.NAME = false ∧
    input_object_type_extension (mkParser [tExtend, tInput, tRC]) =
      .ok ⟨[tRC],
        [⟨.DOCUMENT,
          [Cst.node .INPUT_OBJECT_TYPE_EXTENSION
            [Cst.token .extend_KW "extend", Cst.token .input_KW "input"]]⟩],
        [], [missingNameMsg "\x7d", extRequirementsMsg "\x7d"]⟩ ∧
    Cst.hasKind
      (Cst.node .INPUT_OBJECT_TYPE_EXTENSION
        [Cst.token .extend_KW "extend", Cst.token .input_KW "input"])
      SyntaxKind.NAME = false :=
  c3_missing_name_no_placeholder tRC (by decide) (by decide) (by decide)

theorem headKind_append_of_ne_nil {ts : List Token} (rest : List Token) (h : ts ≠ []) :
    headKind (ts ++ rest) = headKind ts := by
  cases ts with
  | nil => exact absurd rfl h
  | cons t ts => rfl

theorem ValidTy_cons {ts : List Token} (h : ValidTy ts) :
    ∃ t0 ts0, ts = t0 :: ts0 ∧
      (t0.kind = TokenKind.Name ∨ t0.kind = TokenKind.LBracket) := by
  cases h with
  | named s => exact ⟨_, _, rfl, Or.inl rfl⟩
  | namedNonNull s b => exact ⟨_, _, rfl, Or.inl rfl⟩
  | list l r h => exact ⟨_, _, rfl, Or.inr rfl⟩
  | listNonNull l r b h => exact ⟨_, _, rfl, Or.inr rfl⟩

theorem parseTyTree_valid {ts : List Token} (h : ValidTy ts) :
    ∀ rest : List Token, headKind rest ≠ some TokenKind.Bang →
    ∃ tr, parseTyTree (ts ++ rest) = some (tr, rest) := by
  induction h with
  | named s =>
    intro rest hr
    rcases rest with _ | ⟨⟨k, x⟩, r2⟩
    · exact ⟨_, rfl⟩
    · cases k with
      | Bang => exact absurd rfl hr
      | Name => exact ⟨_, rfl⟩
      | LCurly => exact ⟨_, rfl⟩
      | RCurly => exact ⟨_, rfl⟩
      | Colon => exact ⟨_, rfl⟩
      | Comma => exact ⟨_, rfl⟩
      | At => exact ⟨_, rfl⟩
      | Eq => exact ⟨_, rfl⟩
      | LBracket => exact ⟨_, rfl⟩
      | RBracket => exact ⟨_, rfl⟩
  | namedNonNull s b =>
    intro rest hr
    exact ⟨_, rfl⟩
  | list l r h IH =>
    intro rest hr
    obtain ⟨tr, htr⟩ := IH (⟨.RBracket, r⟩ :: rest) (by simp [headKind])
    rcases rest with _ | ⟨⟨k, x⟩, r2⟩
    · refine ⟨Cst.node .TYPE
        [Cst.node .LIST_TYPE [Cst.token .L_BRACKET l, tr, Cst.token .R_BRACKET r]], ?_⟩
      simp only [List.cons_append, List.append_assoc, List.singleton_append] at htr ⊢
      rw [parseTyTree]
      simp only [List.nil_append, List.append_nil, List.append_eq]
      rw [htr]
    · cases k <;>
        first
        | exact absurd rfl hr
        | (refine ⟨Cst.node .TYPE
             [Cst.node .LIST_TYPE [Cst.token .L_BRACKET l, tr, Cst.token .R_BRACKET r]], ?_⟩
           simp only [List.cons_append, List.append_assoc, List.singleton_append] at htr ⊢
           rw [parseTyTree]
           simp only [List.nil_append, List.append_nil, List.append_eq]
           rw [htr])
  | listNonNull l r b h IH =>
    intro rest hr
    obtain ⟨tr, htr⟩ := IH (⟨.RBracket, r⟩ :: ⟨.Bang, b⟩ :: rest) (by simp [headKind])
    refine ⟨Cst.node .TYPE
      [Cst.node .NON_NULL_TYPE
        [Cst.node .TYPE
          [Cst.node .LIST_TYPE [Cst.token .L_BRACKET l, tr, Cst.token .R_BRACKET r]],
         Cst.token .BANG b]], ?_⟩
    simp only [List.cons_append, List.append_assoc, List.singleton_append] at htr ⊢
    rw [parseTyTree]
    simp only [List.nil_append, List.append_nil, List.append_eq]
    rw [htr]

theorem parseDirectives_stop {rest : List Token}
    (h : headKind rest ≠ some TokenKind.At) : parseDirectives rest = ([], rest) := by
  rcases rest with _ | ⟨⟨k, x⟩, r2⟩
  · rfl
  · cases k with
    | At => exact absurd rfl h
    | Name => rfl
    | LCurly => rfl
    | RCurly => rfl
    | Colon => rfl
    | Comma => rfl
    | Eq => rfl
    | Bang => rfl
    | LBracket => rfl
    | RBracket => rfl

theorem parseDirectives_valid {ds : List Token} (h : ValidDirs ds) :
    ∀ rest : List Token, headKind rest ≠ some TokenKind.At →
    ∃ trs, parseDirectives (ds ++ rest) = (trs, rest) := by
  induction h with
  | one a d =>
    intro rest hr
    refine ⟨[Cst.node .DIRECTIVE
      [Cst.token .AT a, Cst.node .NAME [Cst.token .IDENT d]]], ?_⟩
    show parseDirectives (⟨.At, a⟩ :: ⟨.Name, d⟩ :: rest) = _
    rw [parseDirectives, parseDirectives_stop hr]
  | cons a d h IH =>
    intro rest hr
    obtain ⟨trs, htrs⟩ := IH rest hr
    refine ⟨Cst.node .DIRECTIVE
      [Cst.token .AT a, Cst.node .NAME [Cst.token .IDENT d]] :: trs, ?_⟩
    show parseDirectives (⟨.At, a⟩ :: ⟨.Name, d⟩ :: _) = _
    rw [parseDirectives]
    simp only [List.append_eq]
    rw [htrs]

theorem ivdF_stop_true (f : Nat) (t : Token) (rest : List Token) (stk : List Frame)
    (rts : List Cst) (errs : List String)
    (h1 : t.kind ≠ TokenKind.Name) (h2 : t.kind ≠ TokenKind.Comma) :
    ivdF (f + 1) ⟨t :: rest, stk, rts, errs⟩ true = .ok ⟨t :: rest, stk, rts, errs⟩ := by
  rw [ivdF]
  simp [Parser.peek, h1, h2]

theorem ivdF_comma_step (f : Nat) (cm : String) (rest : List Token) (stk : List Frame)
    (rts : List Cst) (errs : List String) (b : Bool) :
    ∃ stk2 rts2, ivdF (f + 1) ⟨⟨.Comma, cm⟩ :: rest, stk, rts, errs⟩ b =
      ivdF f ⟨rest, stk2, rts2, errs⟩ b := by
  rcases stk with _ | ⟨fr, stk2⟩
  · exact ⟨[], rts ++ [Cst.token .COMMA cm], by
      rw [ivdF]; simp [Parser.peek, Parser.bump, Parser.attach]⟩
  · exact ⟨⟨fr.kind, fr.children ++ [Cst.token .COMMA cm]⟩ :: stk2, rts, by
      rw [ivdF]; simp [Parser.peek, Parser.bump, Parser.attach]⟩

theorem ivdF_field_step (n c : String) {ts rest2 : List Token} (hts : ValidTy ts)
    (hh : headKind rest2 = some TokenKind.Name ∨ headKind rest2 = some TokenKind.Comma ∨
      headKind rest2 = some TokenKind.RCurly)
    (f : Nat) (stk : List Frame) (rts : List Cst) (errs : List String) (b : Bool) :
    ∃ stk2 rts2, ivdF (f + 1) ⟨fieldToks n c ts ++ rest2, stk, rts, errs⟩ b =
      ivdF f ⟨rest2, stk2, rts2, errs⟩ true := by
  have hbang : headKind rest2 ≠ some TokenKind.Bang := by
    rcases hh with h | h | h <;> simp [h]
  obtain ⟨tr, htr⟩ := parseTyTree_valid hts rest2 hbang
  obtain ⟨t0, ts0, rfl, hguard⟩ := ValidTy_cons hts
  simp only [List.cons_append] at htr
  simp only [headKind] at hh
  rcases hh with hh | hh | hh <;> rcases stk with _ | ⟨fr, stk'⟩ <;>
    first
    | (refine ⟨[], rts ++ [Cst.node .INPUT_VALUE_DEFINITION
         [Cst.node .NAME [Cst.token .IDENT n], Cst.token .COLON c, tr]], ?_⟩
       conv_lhs => rw [ivdF]
       simp [fieldToks, Parser.peek, Parser.peek_data, name, Parser.startNode, Parser.bump,
         Parser.attach, ty, htr, default_value, Parser.finishNode, hh, hguard]
       done)
    | (refine ⟨⟨fr.kind, fr.children ++ [Cst.node .INPUT_VALUE_DEFINITION
         [Cst.node .NAME [Cst.token .IDENT n], Cst.token .COLON c, tr]]⟩ :: stk', rts, ?_⟩
       conv_lhs => rw [ivdF]
       simp [fieldToks, Parser.peek, Parser.peek_data, name, Parser.startNode, Parser.bump,
         Parser.attach, ty, htr, default_value, Parser.finishNode, hh, hguard])

theorem bump_finish_shape (t : Token) (more : List Token) (stk : List Frame)
    (rts : List Cst) (errs : List String) (k : SyntaxKind) :
    ∃ stk3 rts3, ((⟨t :: more, stk, rts, errs⟩ : Parser).bump k).finishNode =
      ⟨more, stk3, rts3, errs⟩ := by
  rcases stk with _ | ⟨fr, _ | ⟨g, gs⟩⟩ <;> exact ⟨_, _, rfl⟩

theorem ivdF_fieldsAfter {rest : List Token} (hA : FieldsAfter rest) :
    ∀ (f : Nat) (stk : List Frame) (rts : List Cst) (errs : List String)
      (rc : String) (more : List Token), rest.length < f →
    ∃ stk2 rts2, ivdF f ⟨rest ++ ⟨.RCurly, rc⟩ :: more, stk, rts, errs⟩ true =
      .ok ⟨⟨.RCurly, rc⟩ :: more, stk2, rts2, errs⟩ := by
  induction hA with
  | nil =>
    intro f stk rts errs rc more hf
    obtain ⟨f2, rfl⟩ : ∃ f2, f = f2 + 1 := ⟨f - 1, by omega⟩
    exact ⟨stk, rts,
      ivdF_stop_true f2 ⟨.RCurly, rc⟩ more stk rts errs (by simp) (by simp)⟩
  | comma cm hA IH =>
    intro f stk rts errs rc more hf
    obtain ⟨f2, rfl⟩ : ∃ f2, f = f2 + 1 := ⟨f - 1, by omega⟩
    obtain ⟨stkA, rtsA, hstep⟩ :=
      ivdF_comma_step f2 cm (_ ++ ⟨.RCurly, rc⟩ :: more) stk rts errs true
    obtain ⟨stk2, rts2, h2⟩ := IH f2 stkA rtsA errs rc more
      (by simp only [List.length_cons] at hf; omega)
    exact ⟨stk2, rts2, hstep.trans h2⟩
  | field n c hts hA hfollow IH =>
    intro f stk rts errs rc more hf
    obtain ⟨f2, rfl⟩ : ∃ f2, f = f2 + 1 := ⟨f - 1, by omega⟩
    rename_i ts rest'
    have hh : headKind (rest' ++ ⟨.RCurly, rc⟩ :: more) = some TokenKind.Name ∨
        headKind (rest' ++ ⟨.RCurly, rc⟩ :: more) = some TokenKind.Comma ∨
        headKind (rest' ++ ⟨.RCurly, rc⟩ :: more) = some TokenKind.RCurly := by
      rcases hfollow with h | h | h
      · left
        rw [headKind_append_of_ne_nil _ (by rintro rfl; simp [headKind] at h)]
        exact h
      · right; left
        rw [headKind_append_of_ne_nil _ (by rintro rfl; simp [headKind] at h)]
        exact h
      · right; right; subst h; simp [headKind]
    obtain ⟨stkA, rtsA, hstep⟩ := ivdF_field_step n c hts hh f2 stk rts errs true
    obtain ⟨t0, ts0, hts0, -⟩ := ValidTy_cons hts
    obtain ⟨stk2, rts2, h2⟩ := IH f2 stkA rtsA errs rc more
      (by simp only [fieldToks, hts0, List.length_append, List.length_cons] at hf; omega)
    rw [List.append_assoc]
    exact ⟨stk2, rts2, hstep.trans h2⟩

theorem ivdF_fieldsContent {cs : List Token} (hC : FieldsContent cs) :
    ∀ (f : Nat) (stk : List Frame) (rts : List Cst) (errs : List String)
      (rc : String) (more : List Token) (b : Bool), cs.length < f →
    ∃ stk2 rts2, ivdF f ⟨cs ++ ⟨.RCurly, rc⟩ :: more, stk, rts, errs⟩ b =
      .ok ⟨⟨.RCurly, rc⟩ :: more, stk2, rts2, errs⟩ := by
  induction hC with
  | comma cm hC IH =>
    intro f stk rts errs rc more b hf
    obtain ⟨f2, rfl⟩ : ∃ f2, f = f2 + 1 := ⟨f - 1, by omega⟩
    obtain ⟨stkA, rtsA, hstep⟩ :=
      ivdF_comma_step f2 cm (_ ++ ⟨.RCurly, rc⟩ :: more) stk rts errs b
    obtain ⟨stk2, rts2, h2⟩ := IH f2 stkA rtsA errs rc more b
      (by simp only [List.length_cons] at hf; omega)
    exact ⟨stk2, rts2, hstep.trans h2⟩
  | field n c hts hA hfollow =>
    intro f stk rts errs rc more b hf
    obtain ⟨f2, rfl⟩ : ∃ f2, f = f2 + 1 := ⟨f - 1, by omega⟩
    rename_i ts rest'
    have hh : headKind (rest' ++ ⟨.RCurly, rc⟩ :: more) = some TokenKind.Name ∨
        headKind (rest' ++ ⟨.RCurly, rc⟩ :: more) = some TokenKind.Comma ∨
        headKind (rest' ++ ⟨.RCurly, rc⟩ :: more) = some TokenKind.RCurly := by
      rcases hfollow with h | h | h
      · left
        rw [headKind_append_of_ne_nil _ (by rintro rfl; simp [headKind] at h)]
        exact h
      · right; left
        rw [headKind_append_of_ne_nil _ (by rintro rfl; simp [headKind] at h)]
        exact h
      · right; right; subst h; simp [headKind]
    obtain ⟨stkA, rtsA, hstep⟩ := ivdF_field_step n c hts hh f2 stk rts errs b
    obtain ⟨t0, ts0, hts0, -⟩ := ValidTy_cons hts
    obtain ⟨stk2, rts2, h2⟩ := ivdF_fieldsAfter hA f2 stkA rtsA errs rc more
      (by simp only [fieldToks, hts0, List.length_append, List.length_cons] at hf; omega)
    rw [List.append_assoc]
    exact ⟨stk2, rts2, hstep.trans h2⟩

theorem ifd_valid {cs : List Token} (hC : FieldsContent cs) (lc rc : String)
    (stk : List Frame) (rts : List Cst) (errs : List String) (more : List Token) :
    ∃ stk2 rts2, input_fields_definition
        ⟨⟨.LCurly, lc⟩ :: (cs ++ ⟨.RCurly, rc⟩ :: more), stk, rts, errs⟩ =
      .ok ⟨more, stk2, rts2, errs⟩ := by
  obtain ⟨stkA, rtsA, hA⟩ := ivdF_fieldsContent hC
    ((cs ++ ⟨.RCurly, rc⟩ :: more).length + 1)
    (⟨.INPUT_FIELDS_DEFINITION, [Cst.token .L_CURLY lc]⟩ :: stk) rts errs rc more false
    (by simp; omega)
  obtain ⟨stk3, rts3, h3⟩ :=
    bump_finish_shape ⟨.RCurly, rc⟩ more stkA rtsA errs SyntaxKind.R_CURLY
  have hW : input_value_definition
      ⟨cs ++ ⟨.RCurly, rc⟩ :: more,
       ⟨.INPUT_FIELDS_DEFINITION, [Cst.token .L_CURLY lc]⟩ :: stk, rts, errs⟩ false =
      .ok ⟨⟨.RCurly, rc⟩ :: more, stkA, rtsA, errs⟩ := hA
  refine ⟨stk3, rts3, ?_⟩
  simp only [input_fields_definition]
  rw [show ((⟨⟨.LCurly, lc⟩ :: (cs ++ ⟨.RCurly, rc⟩ :: more), stk, rts, errs⟩ : Parser).startNode
        SyntaxKind.INPUT_FIELDS_DEFINITION).bump SyntaxKind.L_CURLY =
      ⟨cs ++ ⟨.RCurly, rc⟩ :: more,
       ⟨.INPUT_FIELDS_DEFINITION, [Cst.token .L_CURLY lc]⟩ :: stk, rts, errs⟩ from rfl]
  rw [hW]
  simp [Parser.peek, h3]

theorem finish_shape (toks : List Token) (stk : List Frame) (rts : List Cst)
    (errs : List String) :
    ∃ stk2 rts2, (⟨toks, stk, rts, errs⟩ : Parser).finishNode = ⟨toks, stk2, rts2, errs⟩ := by
  rcases stk with _ | ⟨fr, _ | ⟨g, gs⟩⟩ <;> exact ⟨_, _, rfl⟩

theorem ValidDirs_cons {ds : List Token} (h : ValidDirs ds) :
    ∃ a d ds2, ds = ⟨.At, a⟩ :: ⟨.Name, d⟩ :: ds2 := by
  cases h with
  | one a d => exact ⟨a, d, [], rfl⟩
  | cons a d h => exact ⟨a, d, _, rfl⟩

theorem directives_valid {ds : List Token} (h : ValidDirs ds) (rest : List Token)
    (hr : headKind rest ≠ some TokenKind.At) (stk : List Frame) (rts : List Cst)
    (errs : List String) :
    ∃ stk2 rts2, directives ⟨ds ++ rest, stk, rts, errs⟩ = ⟨rest, stk2, rts2, errs⟩ := by
  obtain ⟨trs, htrs⟩ := parseDirectives_valid h rest hr
  rcases stk with _ | ⟨fr, stk2⟩
  · exact ⟨[], rts ++ [Cst.node .DIRECTIVES trs], by
      simp [directives, htrs, Parser.attach]⟩
  · exact ⟨⟨fr.kind, fr.children ++ [Cst.node .DIRECTIVES trs]⟩ :: stk2, rts, by
      simp [directives, htrs, Parser.attach]⟩

theorem iotd_valid {ts : List Token} (h : ValidDef ts) (stk : List Frame)
    (rts : List Cst) (errs : List String) :
    ∃ stk2 rts2, input_object_type_definition ⟨ts, stk, rts, errs⟩ =
      .ok ⟨[], stk2, rts2, errs⟩ := by
  cases h with
  | plain nm =>
    obtain ⟨stkB, rtsB, hfin⟩ := finish_shape []
      (⟨.INPUT_OBJECT_TYPE_DEFINITION,
        [Cst.token .input_KW "input", Cst.node .NAME [Cst.token .IDENT nm]]⟩ :: stk) rts errs
    exact ⟨stkB, rtsB, by
      simp only [input_object_type_definition, Parser.peek, Parser.bump, Parser.attach,
        Parser.startNode, name]
      simp [Parser.peek, hfin]⟩
  | dirs nm hds =>
    rename_i ds
    obtain ⟨a, d, ds2, hds2⟩ := ValidDirs_cons hds
    subst hds2
    obtain ⟨stkA, rtsA, hdir⟩ := directives_valid hds []
      (by simp [headKind])
      (⟨.INPUT_OBJECT_TYPE_DEFINITION,
        [Cst.token .input_KW "input", Cst.node .NAME [Cst.token .IDENT nm]]⟩ :: stk) rts errs
    simp only [List.append_nil] at hdir
    obtain ⟨stkB, rtsB, hfin⟩ := finish_shape [] stkA rtsA errs
    exact ⟨stkB, rtsB, by
      simp only [input_object_type_definition, Parser.peek, Parser.bump, Parser.attach,
        Parser.startNode, name]
      simp [Parser.peek, hdir, hfin]⟩
  | fields nm hfb =>
    rename_i fb
    obtain @⟨lc, rc, cs, hcs⟩ := hfb
    obtain ⟨stkA, rtsA, hifd⟩ := ifd_valid hcs lc rc
      (⟨.INPUT_OBJECT_TYPE_DEFINITION,
        [Cst.token .input_KW "input", Cst.node .NAME [Cst.token .IDENT nm]]⟩ :: stk) rts errs []
    obtain ⟨stkB, rtsB, hfin⟩ := finish_shape [] stkA rtsA errs
    exact ⟨stkB, rtsB, by
      simp only [input_object_type_definition, Parser.peek, Parser.bump, Parser.attach,
        Parser.startNode, name]
      simp [Parser.peek, hifd, hfin]⟩
  | dirsFields nm hds hfb =>
    rename_i ds fb
    obtain ⟨a, d, ds2, hds2⟩ := ValidDirs_cons hds
    subst hds2
    obtain @⟨lc, rc, cs, hcs⟩ := hfb
    obtain ⟨stkA, rtsA, hdir⟩ := directives_valid hds (⟨.LCurly, lc⟩ :: cs ++ [⟨.RCurly, rc⟩])
      (by simp [headKind])
      (⟨.INPUT_OBJECT_TYPE_DEFINITION,
        [Cst.token .input_KW "input", Cst.node .NAME [Cst.token .IDENT nm]]⟩ :: stk) rts errs
    simp only [List.cons_append] at hdir
    obtain ⟨stkC, rtsC, hifd⟩ := ifd_valid hcs lc rc stkA rtsA errs []
    obtain ⟨stkB, rtsB, hfin⟩ := finish_shape [] stkC rtsC errs
    exact ⟨stkB, rtsB, by
      simp only [input_object_type_definition, Parser.peek, Parser.bump, Parser.attach,
        Parser.startNode, name]
      simp [Parser.peek, hdir, hifd, hfin]⟩

theorem ext_valid {ts : List Token} (h : ValidExt ts) (stk : List Frame)
    (rts : List Cst) (errs : List String) :
    ∃ stk2 rts2, input_object_type_extension ⟨ts, stk, rts, errs⟩ =
      .ok ⟨[], stk2, rts2, errs⟩ := by
  cases h with
  | dirs nm hds =>
    rename_i ds
    obtain ⟨a, d, ds2, hds2⟩ := ValidDirs_cons hds
    subst hds2
    obtain ⟨stkA, rtsA, hdir⟩ := directives_valid hds []
      (by simp [headKind])
      (⟨.INPUT_OBJECT_TYPE_EXTENSION,
        [Cst.token .extend_KW "extend", Cst.token .input_KW "input",
         Cst.node .NAME [Cst.token .IDENT nm]]⟩ :: stk) rts errs
    simp only [List.append_nil] at hdir
    obtain ⟨stkB, rtsB, hfin⟩ := finish_shape [] stkA rtsA errs
    exact ⟨stkB, rtsB, by
      simp only [input_object_type_extension, Parser.peek, Parser.bump, Parser.attach,
        Parser.startNode, name]
      simp [Parser.peek, hdir, hfin]⟩
  | fields nm hfb =>
    rename_i fb
    obtain @⟨lc, rc, cs, hcs⟩ := hfb
    obtain ⟨stkA, rtsA, hifd⟩ := ifd_valid hcs lc rc
      (⟨.INPUT_OBJECT_TYPE_EXTENSION,
        [Cst.token .extend_KW "extend", Cst.token .input_KW "input",
         Cst.node .NAME [Cst.token .IDENT nm]]⟩ :: stk) rts errs []
    obtain ⟨stkB, rtsB, hfin⟩ := finish_shape [] stkA rtsA errs
    exact ⟨stkB, rtsB, by
      simp only [input_object_type_extension, Parser.peek, Parser.bump, Parser.attach,
        Parser.startNode, name]
      simp [Parser.peek, hifd, hfin]⟩
  | dirsFields nm hds hfb =>
    rename_i ds fb
    obtain ⟨a, d, ds2, hds2⟩ := ValidDirs_cons hds
    subst hds2
    obtain @⟨lc, rc, cs, hcs⟩ := hfb
    obtain ⟨stkA, rtsA, hdir⟩ := directives_valid hds (⟨.LCurly, lc⟩ :: cs ++ [⟨.RCurly, rc⟩])
      (by simp [headKind])
      (⟨.INPUT_OBJECT_TYPE_EXTENSION,
        [Cst.token .extend_KW "extend", Cst.token .input_KW "input",
         Cst.node .NAME [Cst.token .IDENT nm]]⟩ :: stk) rts errs
    simp only [List.cons_append] at hdir
    obtain ⟨stkC, rtsC, hifd⟩ := ifd_valid hcs lc rc stkA rtsA errs []
    obtain ⟨stkB, rtsB, hfin⟩ := finish_shape [] stkC rtsC errs
    exact ⟨stkB, rtsB, by
      simp only [input_object_type_extension, Parser.peek, Parser.bump, Parser.attach,
        Parser.startNode, name]
      simp [Parser.peek, hdir, hifd, hfin]⟩

/-- C7: a token stream that is grammatically valid for the productions of
this file — an input object type definition or extension with a well-formed
name, optional directives, and an optional (for the extension: at least one
of directives and fields) fields block of well-formed input value
definitions — parses with the error sink left empty: absence of an optional
clause merely skips it and is never an error. -/
theorem c7_valid_input_no_errors :
    (∀ ts, ValidDef ts →
      isOk (input_object_type_definition (mkParser ts)) = true ∧
      errorsOf (input_object_type_definition (mkParser ts)) = []) ∧
    (∀ ts, ValidExt ts →
      isOk (input_object_type_extension (mkParser ts)) = true ∧
      errorsOf (input_object_type_extension (mkParser ts)) = []) := by
  constructor
  · intro ts h
    obtain ⟨stk2, rts2, heq⟩ := iotd_valid h [⟨.DOCUMENT, []⟩] [] []
    rw [show mkParser ts = ⟨ts, [⟨.DOCUMENT, []⟩], [], []⟩ from rfl, heq]
    exact ⟨rfl, rfl⟩
  · intro ts h
    obtain ⟨stk2, rts2, heq⟩ := ext_valid h [⟨.DOCUMENT, []⟩] [] []
    rw [show mkParser ts = ⟨ts, [⟨.DOCUMENT, []⟩], [], []⟩ from rfl, heq]
    exact ⟨rfl, rfl⟩

/-- C7 witness: the valid definition `input Foo` and the valid extension
`extend input Foo @skip` both parse with no error. -/
theorem c7_valid_input_no_errors_witness :
    isOk (input_object_type_definition (mkParser [tInput, tName "Foo"])) = true ∧
    errorsOf (input_object_type_definition (mkParser [tInput, tName "Foo"])) = [] ∧
    isOk (input_object_type_extension
      (mkParser [tExtend, tInput, tName "Foo", tAt, tName "skip"])) = true ∧
    errorsOf (input_object_type_extension
      (mkParser [tExtend, tInput, tName "Foo", tAt, tName "skip"])) = [] := by
  have hd := c7_valid_input_no_errors.1 [tInput, tName "Foo"] (ValidDef.plain "Foo")
  have he := c7_valid_input_no_errors.2 [tExtend, tInput, tName "Foo", tAt, tName "skip"]
    (ValidExt.dirs "Foo" (ValidDirs.one "@" "skip"))
  exact ⟨hd.1, hd.2, he.1, he.2⟩

/-- C10: separators in the InputValueDefinition list are optional and
liberal: any brace-delimited body made of well-formed fields with commas
freely interleaved — none between adjacent fields, a trailing comma before
the closing brace, or a comma with no element before the next one — parses
with no error recorded. -/
theorem c10_separators_optional_and_liberal (cs : List Token) (lc rc : String)
    (more : List Token) (hC : FieldsContent cs) :
    isOk (input_fields_definition
      (mkParser (⟨.LCurly, lc⟩ :: (cs ++ ⟨.RCurly, rc⟩ :: more)))) = true ∧
    errorsOf (input_fields_definition
      (mkParser (⟨.LCurly, lc⟩ :: (cs ++ ⟨.RCurly, rc⟩ :: more)))) = [] := by
  obtain ⟨stk2, rts2, heq⟩ := ifd_valid hC lc rc [⟨.DOCUMENT, []⟩] [] [] more
  rw [show mkParser (⟨.LCurly, lc⟩ :: (cs ++ ⟨.RCurly, rc⟩ :: more)) =
    ⟨⟨.LCurly, lc⟩ :: (cs ++ ⟨.RCurly, rc⟩ :: more), [⟨.DOCUMENT, []⟩], [], []⟩ from rfl, heq]
  exact ⟨rfl, rfl⟩

/-- C10 witness: the body `\x7b a: S b: T , \x7d` — no comma between the two
fields, and a trailing comma — parses with no error. -/
theorem c10_separators_optional_and_liberal_witness :
    isOk (input_fields_definition (mkParser
      [tLC, tName "a", tColon, tName "S", tName "b", tColon, tName "T", tComma, tRC])) = true ∧
    errorsOf (input_fields_definition (mkParser
      [tLC, tName "a", tColon, tName "S", tName "b", tColon, tName "T", tComma, tRC])) = [] := by
  have h1 : FieldsAfter [tComma] := FieldsAfter.comma "," FieldsAfter.nil
  have h2 : FieldsAfter [tName "b", tColon, tName "T", tComma] :=
    FieldsAfter.field "b" ":" (ValidTy.named "T") h1 (Or.inr (Or.inl rfl))
  have hC : FieldsContent [tName "a", tColon, tName "S",
      tName "b", tColon, tName "T", tComma] :=
    FieldsContent.field "a" ":" (ValidTy.named "S") h2 (Or.inl rfl)
  exact c10_separators_optional_and_liberal
    [tName "a", tColon, tName "S", tName "b", tColon, tName "T", tComma]
    "\x7b" "\x7d" [] hC

theorem ivdF_step2_sp (f : Nat) (r : Parser) (b : Bool) (q : Parser)
    (IH : ∀ (p : Parser) (b : Bool) (q : Parser), ivdF f p b = .ok q → stackPreserved p q)
    (h : (if r.peek = some TokenKind.Comma then ivdF f (r.bump SyntaxKind.COMMA) b
          else if b then .ok r
          else match r.peek_data with
            | some d => .ok (r.push_err (ivdListMsg d))
            | none => .error ⟨unwrapPanic, r⟩) = .ok q) :
    stackPreserved r q := by
  split at h
  · exact sp_trans (sp_bump r SyntaxKind.COMMA) (IH _ _ _ h)
  · split at h
    · simp only [Except.ok.injEq] at h; subst h; exact sp_refl r
    · cases hd : r.peek_data with
      | some d =>
        rw [hd] at h
        simp only [Except.ok.injEq] at h; subst h
        exact sp_push_err r _
      | none => rw [hd] at h; simp at h

theorem ivdF_sp : ∀ (f : Nat) (p : Parser) (b : Bool) (q : Parser),
    ivdF f p b = .ok q → stackPreserved p q := by
  intro f
  induction f with
  | zero =>
    intro p b q h
    simp [ivdF] at h
  | succ f IH =>
    intro p b q h
    simp only [ivdF] at h
    by_cases hn : p.peek = some TokenKind.Name
    case neg =>
      rw [if_neg hn] at h
      exact ivdF_step2_sp f p b q IH h
    case pos =>
      rw [if_pos hn] at h
      by_cases hc : (name (p.startNode SyntaxKind.INPUT_VALUE_DEFINITION)).peek =
          some TokenKind.Colon
      case neg =>
        rw [if_neg hc] at h
        cases hd : (name (p.startNode SyntaxKind.INPUT_VALUE_DEFINITION)).peek_data with
        | none => rw [hd] at h; simp at h
        | some d =>
          rw [hd] at h
          have hsp : stackPreserved p
              (((name (p.startNode SyntaxKind.INPUT_VALUE_DEFINITION)).push_err
                (ivdNameMsg d)).finishNode) :=
            sp_sandwich _ (sp_trans (sp_name _) (sp_push_err _ _))
          exact sp_trans hsp (ivdF_step2_sp f _ b q IH h)
      case pos =>
        rw [if_pos hc] at h
        by_cases hg : ((name (p.startNode SyntaxKind.INPUT_VALUE_DEFINITION)).bump
            SyntaxKind.COLON).peek = some TokenKind.Name ∨
            ((name (p.startNode SyntaxKind.INPUT_VALUE_DEFINITION)).bump
            SyntaxKind.COLON).peek = some TokenKind.LBracket
        case neg =>
          rw [if_neg hg] at h
          cases hd : ((name (p.startNode SyntaxKind.INPUT_VALUE_DEFINITION)).bump
              SyntaxKind.COLON).peek_data with
          | none => rw [hd] at h; simp at h
          | some d =>
            rw [hd] at h
            have hsp : stackPreserved p
                ((((name (p.startNode SyntaxKind.INPUT_VALUE_DEFINITION)).bump
                  SyntaxKind.COLON).push_err (ivdTypeMsg d)).finishNode) :=
              sp_sandwich _ (sp_trans (sp_name _) (sp_trans (sp_bump _ _) (sp_push_err _ _)))
            exact sp_trans hsp (ivdF_step2_sp f _ b q IH h)
        case pos =>
          rw [if_pos hg] at h
          have hsp : stackPreserved p
              ((if (ty ((name (p.startNode SyntaxKind.INPUT_VALUE_DEFINITION)).bump
                    SyntaxKind.COLON)).peek = some TokenKind.Eq then
                  default_value (ty ((name (p.startNode
                    SyntaxKind.INPUT_VALUE_DEFINITION)).bump SyntaxKind.COLON))
                else ty ((name (p.startNode SyntaxKind.INPUT_VALUE_DEFINITION)).bump
                  SyntaxKind.COLON)).finishNode) := by
            apply sp_sandwich SyntaxKind.INPUT_VALUE_DEFINITION
            have h1 := sp_name (p.startNode SyntaxKind.INPUT_VALUE_DEFINITION)
            have h2 := sp_bump (name (p.startNode SyntaxKind.INPUT_VALUE_DEFINITION))
              SyntaxKind.COLON
            have h3 := sp_ty ((name (p.startNode SyntaxKind.INPUT_VALUE_DEFINITION)).bump
              SyntaxKind.COLON)
            have h4 : stackPreserved
                (ty ((name (p.startNode SyntaxKind.INPUT_VALUE_DEFINITION)).bump
                  SyntaxKind.COLON))
                (if (ty ((name (p.startNode SyntaxKind.INPUT_VALUE_DEFINITION)).bump
                      SyntaxKind.COLON)).peek = some TokenKind.Eq then
                    default_value (ty ((name (p.startNode
                      SyntaxKind.INPUT_VALUE_DEFINITION)).bump SyntaxKind.COLON))
                  else ty ((name (p.startNode SyntaxKind.INPUT_VALUE_DEFINITION)).bump
                    SyntaxKind.COLON)) := by
              split
              · exact sp_default_value _
              · exact sp_refl _
            exact sp_trans h1 (sp_trans h2 (sp_trans h3 h4))
          by_cases hs : (if (ty ((name (p.startNode
                SyntaxKind.INPUT_VALUE_DEFINITION)).bump SyntaxKind.COLON)).peek =
                some TokenKind.Eq then
              default_value (ty ((name (p.startNode
                SyntaxKind.INPUT_VALUE_DEFINITION)).bump SyntaxKind.COLON))
            else ty ((name (p.startNode SyntaxKind.INPUT_VALUE_DEFINITION)).bump
              SyntaxKind.COLON)).peek.isSome = true
          case pos =>
            rw [if_pos hs] at h
            exact sp_trans hsp (IH _ _ _ h)
          case neg =>
            rw [if_neg hs] at h
            exact sp_trans hsp (ivdF_step2_sp f _ b q IH h)

theorem ivd_sp (p : Parser) (b : Bool) (q : Parser)
    (h : input_value_definition p b = .ok q) : stackPreserved p q :=
  ivdF_sp (p.tokens.length + 1) p b q h

theorem ifd_sp (p q : Parser) (h : input_fields_definition p = .ok q) :
    stackPreserved p q := by
  simp only [input_fields_definition] at h
  cases hv : input_value_definition
      ((p.startNode SyntaxKind.INPUT_FIELDS_DEFINITION).bump SyntaxKind.L_CURLY) false with
  | error e => rw [hv] at h; simp at h
  | ok p2 =>
    rw [hv] at h
    have hsp2 : stackPreserved (p.startNode SyntaxKind.INPUT_FIELDS_DEFINITION) p2 :=
      sp_trans (sp_bump _ _) (ivd_sp _ _ _ hv)
    split at h
    · simp_all
    · rename_i p2x heq
      simp only [Except.ok.injEq] at heq
      subst heq
      split at h
      · simp only [Except.ok.injEq] at h; subst h
        exact sp_sandwich _ (sp_trans hsp2 (sp_bump _ _))
      · simp only [Except.ok.injEq] at h; subst h
        exact sp_sandwich _ (sp_trans hsp2 (sp_push_err _ _))

theorem iotd_sp (p q : Parser) (h : input_object_type_definition p = .ok q) :
    stackPreserved p q := by
  simp only [input_object_type_definition] at h
  have hsp3 : stackPreserved (p.startNode SyntaxKind.INPUT_OBJECT_TYPE_DEFINITION)
      (if (match ((p.startNode SyntaxKind.INPUT_OBJECT_TYPE_DEFINITION).bump
            SyntaxKind.input_KW).peek with
          | some TokenKind.Name => name ((p.startNode
              SyntaxKind.INPUT_OBJECT_TYPE_DEFINITION).bump SyntaxKind.input_KW)
          | _ => ((p.startNode SyntaxKind.INPUT_OBJECT_TYPE_DEFINITION).bump
              SyntaxKind.input_KW).push_err (missingNameMsg
              (((p.startNode SyntaxKind.INPUT_OBJECT_TYPE_DEFINITION).bump
                SyntaxKind.input_KW).peek_data.getD "no further data"))).peek =
          some TokenKind.At then
        directives (match ((p.startNode SyntaxKind.INPUT_OBJECT_TYPE_DEFINITION).bump
            SyntaxKind.input_KW).peek with
          | some TokenKind.Name => name ((p.startNode
              SyntaxKind.INPUT_OBJECT_TYPE_DEFINITION).bump SyntaxKind.input_KW)
          | _ => ((p.startNode SyntaxKind.INPUT_OBJECT_TYPE_DEFINITION).bump
              SyntaxKind.input_KW).push_err (missingNameMsg
              (((p.startNode SyntaxKind.INPUT_OBJECT_TYPE_DEFINITION).bump
                SyntaxKind.input_KW).peek_data.getD "no further data")))
      else (match ((p.startNode SyntaxKind.INPUT_OBJECT_TYPE_DEFINITION).bump
            SyntaxKind.input_KW).peek with
          | some TokenKind.Name => name ((p.startNode
              SyntaxKind.INPUT_OBJECT_TYPE_DEFINITION).bump SyntaxKind.input_KW)
          | _ => ((p.startNode SyntaxKind.INPUT_OBJECT_TYPE_DEFINITION).bump
              SyntaxKind.input_KW).push_err (missingNameMsg
              (((p.startNode SyntaxKind.INPUT_OBJECT_TYPE_DEFINITION).bump
                SyntaxKind.input_KW).peek_data.getD "no further data")))) := by
    have h2 : stackPreserved ((p.startNode SyntaxKind.INPUT_OBJECT_TYPE_DEFINITION).bump
        SyntaxKind.input_KW)
        (match ((p.startNode SyntaxKind.INPUT_OBJECT_TYPE_DEFINITION).bump
            SyntaxKind.input_KW).peek with
          | some TokenKind.Name => name ((p.startNode
              SyntaxKind.INPUT_OBJECT_TYPE_DEFINITION).bump SyntaxKind.input_KW)
          | _ => ((p.startNode SyntaxKind.INPUT_OBJECT_TYPE_DEFINITION).bump
              SyntaxKind.input_KW).push_err (missingNameMsg
              (((p.startNode SyntaxKind.INPUT_OBJECT_TYPE_DEFINITION).bump
                SyntaxKind.input_KW).peek_data.getD "no further data"))) := by
      split
      · exact sp_name _
      · exact sp_push_err _ _
    refine sp_trans (sp_bump _ _) (sp_trans h2 ?_)
    split <;> split
    · exact sp_directives _
    · exact sp_refl _
    · exact sp_directives _
    · exact sp_refl _
  generalize hp3 : (if (match ((p.startNode SyntaxKind.INPUT_OBJECT_TYPE_DEFINITION).bump
            SyntaxKind.input_KW).peek with
          | some TokenKind.Name => name ((p.startNode
              SyntaxKind.INPUT_OBJECT_TYPE_DEFINITION).bump SyntaxKind.input_KW)
          | _ => ((p.startNode SyntaxKind.INPUT_OBJECT_TYPE_DEFINITION).bump
              SyntaxKind.input_KW).push_err (missingNameMsg
              (((p.startNode SyntaxKind.INPUT_OBJECT_TYPE_DEFINITION).bump
                SyntaxKind.input_KW).peek_data.getD "no further data"))).peek =
          some TokenKind.At then
        directives (match ((p.startNode SyntaxKind.INPUT_OBJECT_TYPE_DEFINITION).bump
            SyntaxKind.input_KW).peek with
          | some TokenKind.Name => name ((p.startNode
              SyntaxKind.INPUT_OBJECT_TYPE_DEFINITION).bump SyntaxKind.input_KW)
          | _ => ((p.startNode SyntaxKind.INPUT_OBJECT_TYPE_DEFINITION).bump
              SyntaxKind.input_KW).push_err (missingNameMsg
              (((p.startNode SyntaxKind.INPUT_OBJECT_TYPE_DEFINITION).bump
                SyntaxKind.input_KW).peek_data.getD "no further data")))
      else (match ((p.startNode SyntaxKind.INPUT_OBJECT_TYPE_DEFINITION).bump
            SyntaxKind.input_KW).peek with
          | some TokenKind.Name => name ((p.startNode
              SyntaxKind.INPUT_OBJECT_TYPE_DEFINITION).bump SyntaxKind.input_KW)
          | _ => ((p.startNode SyntaxKind.INPUT_OBJECT_TYPE_DEFINITION).bump
              SyntaxKind.input_KW).push_err (missingNameMsg
              (((p.startNode SyntaxKind.INPUT_OBJECT_TYPE_DEFINITION).bump
                SyntaxKind.input_KW).peek_data.getD "no further data")))) = p3 at hsp3 h
  split at h
  · simp_all
  · rename_i p4 heq
    simp only [Except.ok.injEq] at h
    subst h
    split at heq
    · exact sp_sandwich _ (sp_trans hsp3 (ifd_sp p3 p4 heq))
    · simp only [Except.ok.injEq] at heq
      subst heq
      exact sp_sandwich _ hsp3

theorem ext_sp (p q : Parser) (h : input_object_type_extension p = .ok q) :
    stackPreserved p q := by
  simp only [input_object_type_extension] at h
  have hsp3 : stackPreserved (p.startNode SyntaxKind.INPUT_OBJECT_TYPE_EXTENSION)
      (if (match (((p.startNode SyntaxKind.INPUT_OBJECT_TYPE_EXTENSION).bump
            SyntaxKind.extend_KW).bump SyntaxKind.input_KW).peek with
          | some TokenKind.Name => name (((p.startNode
              SyntaxKind.INPUT_OBJECT_TYPE_EXTENSION).bump SyntaxKind.extend_KW).bump
              SyntaxKind.input_KW)
          | _ => (((p.startNode SyntaxKind.INPUT_OBJECT_TYPE_EXTENSION).bump
              SyntaxKind.extend_KW).bump SyntaxKind.input_KW).push_err (missingNameMsg
              ((((p.startNode SyntaxKind.INPUT_OBJECT_TYPE_EXTENSION).bump
                SyntaxKind.extend_KW).bump
                SyntaxKind.input_KW).peek_data.getD "no further data"))).peek =
          some TokenKind.At then
        directives (match (((p.startNode SyntaxKind.INPUT_OBJECT_TYPE_EXTENSION).bump
            SyntaxKind.extend_KW).bump SyntaxKind.input_KW).peek with
          | some TokenKind.Name => name (((p.startNode
              SyntaxKind.INPUT_OBJECT_TYPE_EXTENSION).bump SyntaxKind.extend_KW).bump
              SyntaxKind.input_KW)
          | _ => (((p.startNode SyntaxKind.INPUT_OBJECT_TYPE_EXTENSION).bump
              SyntaxKind.extend_KW).bump SyntaxKind.input_KW).push_err (missingNameMsg
              ((((p.startNode SyntaxKind.INPUT_OBJECT_TYPE_EXTENSION).bump
                SyntaxKind.extend_KW).bump
                SyntaxKind.input_KW).peek_data.getD "no further data")))
      else (match (((p.startNode SyntaxKind.INPUT_OBJECT_TYPE_EXTENSION).bump
            SyntaxKind.extend_KW).bump SyntaxKind.input_KW).peek with
          | some TokenKind.Name => name (((p.startNode
              SyntaxKind.INPUT_OBJECT_TYPE_EXTENSION).bump SyntaxKind.extend_KW).bump
              SyntaxKind.input_KW)
          | _ => (((p.startNode SyntaxKind.INPUT_OBJECT_TYPE_EXTENSION).bump
              SyntaxKind.extend_KW).bump SyntaxKind.input_KW).push_err (missingNameMsg
              ((((p.startNode SyntaxKind.INPUT_OBJECT_TYPE_EXTENSION).bump
                SyntaxKind.extend_KW).bump
                SyntaxKind.input_KW).peek_data.getD "no further data")))) := by
    have h2 : stackPreserved (((p.startNode SyntaxKind.INPUT_OBJECT_TYPE_EXTENSION).bump
        SyntaxKind.extend_KW).bump SyntaxKind.input_KW)
        (match (((p.startNode SyntaxKind.INPUT_OBJECT_TYPE_EXTENSION).bump
            SyntaxKind.extend_KW).bump SyntaxKind.input_KW).peek with
          | some TokenKind.Name => name (((p.startNode
              SyntaxKind.INPUT_OBJECT_TYPE_EXTENSION).bump SyntaxKind.extend_KW).bump
              SyntaxKind.input_KW)
          | _ => (((p.startNode SyntaxKind.INPUT_OBJECT_TYPE_EXTENSION).bump
              SyntaxKind.extend_KW).bump SyntaxKind.input_KW).push_err (missingNameMsg
              ((((p.startNode SyntaxKind.INPUT_OBJECT_TYPE_EXTENSION).bump
                SyntaxKind.extend_KW).bump
                SyntaxKind.input_KW).peek_data.getD "no further data"))) := by
      split
      · exact sp_name _
      · exact sp_push_err _ _
    refine sp_trans (sp_bump _ _) (sp_trans (sp_bump _ _) (sp_trans h2 ?_))
    split <;> split
    · exact sp_directives _
    · exact sp_refl _
    · exact sp_directives _
    · exact sp_refl _
  generalize hp3 : (if (match (((p.startNode SyntaxKind.INPUT_OBJECT_TYPE_EXTENSION).bump
            SyntaxKind.extend_KW).bump SyntaxKind.input_KW).peek with
          | some TokenKind.Name => name (((p.startNode
              SyntaxKind.INPUT_OBJECT_TYPE_EXTENSION).bump SyntaxKind.extend_KW).bump
              SyntaxKind.input_KW)
          | _ => (((p.startNode SyntaxKind.INPUT_OBJECT_TYPE_EXTENSION).bump
              SyntaxKind.extend_KW).bump SyntaxKind.input_KW).push_err (missingNameMsg
              ((((p.startNode SyntaxKind.INPUT_OBJECT_TYPE_EXTENSION).bump
                SyntaxKind.extend_KW).bump
                SyntaxKind.input_KW).peek_data.getD "no further data"))).peek =
          some TokenKind.At then
        directives (match (((p.startNode SyntaxKind.INPUT_OBJECT_TYPE_EXTENSION).bump
            SyntaxKind.extend_KW).bump SyntaxKind.input_KW).peek with
          | some TokenKind.Name => name (((p.startNode
              SyntaxKind.INPUT_OBJECT_TYPE_EXTENSION).bump SyntaxKind.extend_KW).bump
              SyntaxKind.input_KW)
          | _ => (((p.startNode SyntaxKind.INPUT_OBJECT_TYPE_EXTENSION).bump
              SyntaxKind.extend_KW).bump SyntaxKind.input_KW).push_err (missingNameMsg
              ((((p.startNode SyntaxKind.INPUT_OBJECT_TYPE_EXTENSION).bump
                SyntaxKind.extend_KW).bump
                SyntaxKind.input_KW).peek_data.getD "no further data")))
      else (match (((p.startNode SyntaxKind.INPUT_OBJECT_TYPE_EXTENSION).bump
            SyntaxKind.extend_KW).bump SyntaxKind.input_KW).peek with
          | some TokenKind.Name => name (((p.startNode
              SyntaxKind.INPUT_OBJECT_TYPE_EXTENSION).bump SyntaxKind.extend_KW).bump
              SyntaxKind.input_KW)
          | _ => (((p.startNode SyntaxKind.INPUT_OBJECT_TYPE_EXTENSION).bump
              SyntaxKind.extend_KW).bump SyntaxKind.input_KW).push_err (missingNameMsg
              ((((p.startNode SyntaxKind.INPUT_OBJECT_TYPE_EXTENSION).bump
                SyntaxKind.extend_KW).bump
                SyntaxKind.input_KW).peek_data.getD "no further data")))) = p3 at hsp3 h
  split at h
  · simp_all
  · rename_i p4 heq
    split at h
    · simp only [Except.ok.injEq] at h
      subst h
      split at heq
      · exact sp_sandwich _ (sp_trans hsp3 (ifd_sp p3 p4 heq))
      · simp only [Except.ok.injEq] at heq
        subst heq
        exact sp_sandwich _ hsp3
    · simp only [Except.ok.injEq] at h
      subst h
      split at heq
      · exact sp_sandwich _ (sp_trans (sp_trans hsp3 (ifd_sp p3 p4 heq)) (sp_push_err _ _))
      · simp only [Except.ok.injEq] at heq
        subst heq
        exact sp_sandwich _ (sp_trans hsp3 (sp_push_err _ _))

/-- C8: every node opened by a grammar rule of this file is closed exactly
once before the rule returns, on every control path on which the rule
returns to its caller — including the paths that push errors to the sink:
at the return of any of the four rules the tree-builder stack holds exactly
the frames that were open at entry, the enclosing frames untouched and the
innermost frame extended only by new children, so a rule never leaks or
over-closes a frame and never hands its caller a failure. -/
theorem c8_open_close_discipline :
    (∀ p q, input_object_type_definition p = .ok q → stackPreserved p q) ∧
    (∀ p q, input_object_type_extension p = .ok q → stackPreserved p q) ∧
    (∀ p q, input_fields_definition p = .ok q → stackPreserved p q) ∧
    (∀ p b q, input_value_definition p b = .ok q → stackPreserved p q) :=
  ⟨iotd_sp, ext_sp, ifd_sp, fun p b q h => ivd_sp p b q h⟩

/-- C8 witness: for the parse of `input Foo` the document frame is the only
open frame before and after, extended by exactly the one definition node. -/
theorem c8_open_close_discipline_witness :
    input_object_type_definition (mkParser [tInput, tName "Foo"]) =
      .ok ⟨[], [⟨.DOCUMENT, [Cst.node .INPUT_OBJECT_TYPE_DEFINITION
        [Cst.token .input_KW "input", Cst.node .NAME [Cst.token .IDENT "Foo"]]]⟩], [], []⟩ ∧
    stackPreserved (mkParser [tInput, tName "Foo"])
      ⟨[], [⟨.DOCUMENT, [Cst.node .INPUT_OBJECT_TYPE_DEFINITION
        [Cst.token .input_KW "input", Cst.node .NAME [Cst.token .IDENT "Foo"]]]⟩], [], []⟩ :=
  ⟨rfl, c8_open_close_discipline.1 _ _ rfl⟩
